import Mathlib

/-!
Verification of the PGN-to-EPD extraction pipeline.

The repository has two entry points sharing one design:

* the command-line pipeline in src/epdpgnPython.py (offset scan, chunked
  worker pool, per-worker spill files, set-based merge, sorted output), and
* the backend pipeline in src/backend/processor.py driven by
  src/backend/server.py (worker pool with pause/stop events, concatenating
  merge, save-on-stop control plane).

The definitions below are shallow embeddings of the functions of those
files; each definition's doc comment points to the source lines it models.
Board states, EPD/FEN texts and traceability tags are modelled as opaque
text, since their internal structure is produced by the external chess
library and never inspected by the code under verification.
-/

namespace PGNtoEPD

/-! ## Text model: Python `str.strip` and string ordering -/

/-- Default whitespace characters recognised by Python `str.strip()`
(the ASCII subset; every line handled by this program is ASCII text). -/
def isPySpace (c : Char) : Bool :=
  c = ' ' || c = '\t' || c = '\n' || c = '\r' || c = '\x0b' || c = '\x0c'

/-- Remove the trailing run of characters satisfying `p`. -/
def dropTrailWhile (p : Char → Bool) (l : List Char) : List Char :=
  (l.reverse.dropWhile p).reverse

/-- Python `line.strip()`: remove leading and trailing whitespace. -/
def pyStrip (s : String) : String :=
  ⟨dropTrailWhile isPySpace (s.data.dropWhile isPySpace)⟩

/-- Lexicographic comparison of character lists by code point, the order
Python `sorted` uses on strings. -/
def charListLe : List Char → List Char → Bool
  | [], _ => true
  | _ :: _, [] => false
  | a :: as, b :: bs =>
    if a.toNat < b.toNat then true
    else if b.toNat < a.toNat then false
    else charListLe as bs

/-- Python string comparison `a <= b` (lexicographic by code point). -/
def lineLe (a b : String) : Bool :=
  charListLe a.data b.data

theorem charListLe_total (a b : List Char) : charListLe a b || charListLe b a := by
  induction a generalizing b with
  | nil => simp [charListLe]
  | cons x xs ih =>
    cases b with
    | nil => simp [charListLe]
    | cons y ys =>
      simp only [charListLe]
      rcases Nat.lt_trichotomy x.toNat y.toNat with h | h | h
      · simp [h]
      · simp only [h, Nat.lt_irrefl, if_false]
        exact ih ys
      · simp [h, Nat.lt_asymm h]

theorem charListLe_trans (a b c : List Char) (hab : charListLe a b = true)
    (hbc : charListLe b c = true) : charListLe a c = true := by
  induction a generalizing b c with
  | nil => simp [charListLe]
  | cons x xs ih =>
    cases b with
    | nil => simp [charListLe] at hab
    | cons y ys =>
      cases c with
      | nil => simp [charListLe] at hbc
      | cons z zs =>
        simp only [charListLe] at hab hbc ⊢
        rcases Nat.lt_trichotomy x.toNat z.toNat with h | h | h
        · simp [h]
        · simp only [h, Nat.lt_irrefl, if_false]
          by_cases hxy : x.toNat < y.toNat
          · by_cases hyz : y.toNat < z.toNat
            · omega
            · simp [hxy] at hab hbc ⊢
              omega
          · by_cases hyx : y.toNat < x.toNat
            · simp [hxy, hyx] at hab
            · have hxy2 : x.toNat = y.toNat := by omega
              by_cases hyz : y.toNat < z.toNat
              · omega
              · have hyz2 : y.toNat = z.toNat := by omega
                simp [hxy, hyx, hyz, ← hyz2, hxy2, Nat.lt_irrefl] at hab hbc ⊢
                exact ih ys zs hab hbc
        · exfalso
          by_cases hxy : x.toNat < y.toNat
          · by_cases hyz : y.toNat < z.toNat
            · omega
            · simp [hyz, Nat.lt_asymm, show z.toNat < y.toNat by omega] at hbc
          · by_cases hyx : y.toNat < x.toNat
            · simp [hxy, hyx] at hab
            · by_cases hyz : y.toNat < z.toNat
              · omega
              · simp [hyz, show z.toNat < y.toNat by omega] at hbc

instance : IsTotal String (fun a b => lineLe a b = true) := by
  constructor
  intro a b
  have h := charListLe_total a.data b.data
  simp only [lineLe]
  rcases Bool.or_eq_true_iff.mp h with h1 | h1
  · exact Or.inl h1
  · exact Or.inr h1

instance : IsTrans String (fun a b => lineLe a b = true) := by
  constructor
  intro a b c hab hbc
  exact charListLe_trans a.data b.data c.data hab hbc

/-- The sort applied to the global result set before writing the final
output file (Python `sorted(list(unique_positions))`,
src/epdpgnPython.py line 179).  Any comparison sort gives the same result;
insertion sort is used as the model. -/
def sortLines (l : List String) : List String :=
  List.insertionSort (fun a b => lineLe a b = true) l

/-! ## CLI merge stage (src/epdpgnPython.py, main, lines 168-180)

The merge loop reads every line of every surviving temp file, adds
`line.strip()` to the global set `unique_positions`, then writes the set
sorted ascending.  A temp file is modelled by the list of its raw lines;
the Python set is modelled by a duplicate-free list built by membership
insert (its iteration order is irrelevant because the output is sorted). -/

/-- Adding one element to a Python set, modelled on duplicate-free lists. -/
def pySetAdd (s : List String) (x : String) : List String :=
  if x ∈ s then s else s ++ [x]

/-- The global set built by the CLI merge loop: every raw line of every
temp file, stripped, added to one set (src/epdpgnPython.py lines 169-175). -/
def globalSet (files : List (List String)) : List String :=
  files.flatten.foldl (fun s l => pySetAdd s (pyStrip l)) []

/-- The full CLI merge stage: build the global set, then write it sorted
ascending by full line text (src/epdpgnPython.py lines 168-180). -/
def mergeCLI (files : List (List String)) : List String :=
  sortLines (globalSet files)

theorem mem_pySetAdd (s : List String) (x y : String) :
    y ∈ pySetAdd s x ↔ y ∈ s ∨ y = x := by
  by_cases h : x ∈ s
  · simp only [pySetAdd, if_pos h]
    constructor
    · exact Or.inl
    · rintro (h1 | rfl)
      · exact h1
      · exact h
  · simp [pySetAdd, if_neg h]

theorem nodup_pySetAdd (s : List String) (x : String) (h : s.Nodup) :
    (pySetAdd s x).Nodup := by
  by_cases hx : x ∈ s
  · simpa [pySetAdd, if_pos hx] using h
  · simp only [pySetAdd, if_neg hx]
    simpa [List.nodup_append, h] using hx

theorem mem_foldl_pySetAdd (l : List String) :
    ∀ (s : List String) (x : String),
      x ∈ l.foldl (fun acc y => pySetAdd acc (pyStrip y)) s ↔
        x ∈ s ∨ x ∈ l.map pyStrip := by
  induction l with
  | nil => simp
  | cons a as ih =>
    intro s x
    simp only [List.foldl_cons, ih, mem_pySetAdd, List.map_cons, List.mem_cons]
    tauto

theorem nodup_foldl_pySetAdd (l : List String) :
    ∀ (s : List String), s.Nodup →
      (l.foldl (fun acc y => pySetAdd acc (pyStrip y)) s).Nodup := by
  induction l with
  | nil => intro s hs; simpa using hs
  | cons a as ih =>
    intro s hs
    exact ih _ (nodup_pySetAdd _ _ hs)

theorem mem_globalSet (files : List (List String)) (x : String) :
    x ∈ globalSet files ↔ x ∈ files.flatten.map pyStrip := by
  simpa using mem_foldl_pySetAdd files.flatten [] x

theorem nodup_globalSet (files : List (List String)) : (globalSet files).Nodup :=
  nodup_foldl_pySetAdd files.flatten [] (by simp)

theorem mergeCLI_perm (files : List (List String)) :
    (mergeCLI files).Perm (globalSet files) :=
  List.perm_insertionSort _ _

theorem mergeCLI_sorted (files : List (List String)) :
    List.Pairwise (fun a b => lineLe a b = true) (mergeCLI files) := by
  have h := List.sorted_insertionSort (fun a b => lineLe a b = true) (globalSet files)
  exact h

theorem mergeCLI_nodup (files : List (List String)) : (mergeCLI files).Nodup :=
  (List.Perm.nodup_iff (mergeCLI_perm files)).mpr (nodup_globalSet files)

theorem mem_mergeCLI (files : List (List String)) (x : String) :
    x ∈ mergeCLI files ↔ x ∈ files.flatten.map pyStrip := by
  rw [List.Perm.mem_iff (mergeCLI_perm files)]
  exact mem_globalSet files x

theorem head_dropWhile_not (p : Char → Bool) (l : List Char) (c : Char)
    (h : (l.dropWhile p).head? = some c) : p c = false := by
  induction l with
  | nil => simp [List.dropWhile] at h
  | cons a as ih =>
    by_cases hp : p a
    · exact ih (by simpa [List.dropWhile, hp] using h)
    · simp only [List.dropWhile, hp, List.head?_cons] at h
      cases h
      simpa using hp

theorem dropWhile_suffix (p : Char → Bool) (l : List Char) :
    ∃ s, l = s ++ l.dropWhile p := by
  induction l with
  | nil => exact ⟨[], rfl⟩
  | cons a as ih =>
    by_cases hp : p a
    · obtain ⟨s, hs⟩ := ih
      exact ⟨a :: s, by simpa [List.dropWhile, hp] using hs⟩
    · exact ⟨[], by simp [List.dropWhile, hp]⟩

theorem head_pyStrip_not_space (s : String) (c : Char)
    (h : (pyStrip s).data.head? = some c) : isPySpace c = false := by
  simp only [pyStrip, dropTrailWhile] at h
  set l1 := s.data.dropWhile isPySpace with hl1
  obtain ⟨t, ht⟩ := dropWhile_suffix isPySpace l1.reverse
  set r := l1.reverse.dropWhile isPySpace with hr
  have hhead : l1.head? = some c := by
    have hrev : l1 = r.reverse ++ t.reverse := by
      have := congrArg List.reverse ht
      simpa [List.reverse_append] using this
    rw [hrev, List.head?_append, h]
    rfl
  exact head_dropWhile_not isPySpace s.data c hhead

theorem getLast_pyStrip_not_space (s : String) (c : Char)
    (h : (pyStrip s).data.getLast? = some c) : isPySpace c = false := by
  simp only [pyStrip, dropTrailWhile, List.getLast?_reverse] at h
  exact head_dropWhile_not isPySpace _ c h

/-! ## Offset scanning and chunk planning

The Record Boundary Scanner produces the ordered list of byte offsets of
record starts; both planners then group that list into contiguous chunks.

* CLI planner (src/epdpgnPython.py lines 144-146):
  `chunk_size = (total + workers - 1) // workers` and
  `chunks = [offsets[i:i+chunk_size] for i in range(0, total, chunk_size)]`.
* Backend planner (src/backend/processor.py lines 178-183): fixed
  `chunk_size_games = 2500`, each chunk recorded as the triple
  (id, first offset, number of games).

`sliceChunksFuel` evaluates the slicing loop; the fuel argument (always
instantiated with the list length, which is an upper bound on the number
of non-empty slices for any step of at least one) keeps the recursion
structural so that concrete instances compute by `decide`. -/

/-- The slicing loop shared by both planners: successive slices of `cs`
elements.  Python raises on a zero step, so all results below assume a
positive chunk size, which both call sites guarantee. -/
def sliceChunksFuel {α : Type} : Nat → List α → Nat → List (List α)
  | 0, _, _ => []
  | _ + 1, [], _ => []
  | fuel + 1, x :: xs, cs => (x :: xs).take cs :: sliceChunksFuel fuel ((x :: xs).drop cs) cs

/-- `offsets[i:i+cs] for i in range(0, len(offsets), cs)` for `cs ≥ 1`. -/
def sliceChunks {α : Type} (l : List α) (cs : Nat) : List (List α) :=
  sliceChunksFuel l.length l cs

/-- CLI chunk planner (src/epdpgnPython.py lines 144-146). -/
def planChunksCLI (offsets : List Nat) (w : Nat) : List (List Nat) :=
  sliceChunks offsets ((offsets.length + w - 1) / w)

/-- One backend chunk descriptor (src/backend/processor.py line 182). -/
structure BackendChunk where
  id : Nat
  offset : Nat
  num_games : Nat
deriving DecidableEq

/-- Backend chunk planner (src/backend/processor.py lines 178-183):
fixed chunk size of 2500 games, each chunk described by its ordinal, its
first game's byte offset and its game count. -/
def planChunksBackend (offsets : List Nat) : List BackendChunk :=
  (sliceChunks offsets 2500).enum.map fun p =>
    { id := p.1, offset := p.2.headD 0, num_games := p.2.length }

theorem sliceChunksFuel_flatten {α : Type} (fuel : Nat) :
    ∀ (l : List α) (cs : Nat), 0 < cs → l.length ≤ fuel →
      (sliceChunksFuel fuel l cs).flatten = l := by
  induction fuel with
  | zero =>
    intro l cs _ hlen
    have : l = [] := List.length_eq_zero.mp (Nat.le_zero.mp hlen)
    simp [this, sliceChunksFuel]
  | succ n ih =>
    intro l cs hcs hlen
    cases l with
    | nil => simp [sliceChunksFuel]
    | cons x xs =>
      simp only [sliceChunksFuel, List.flatten_cons]
      rw [ih ((x :: xs).drop cs) cs hcs]
      · exact List.take_append_drop _ _
      · simp only [List.length_drop, List.length_cons] at *
        omega

theorem sliceChunks_flatten {α : Type} (l : List α) (cs : Nat) (h : 0 < cs) :
    (sliceChunks l cs).flatten = l :=
  sliceChunksFuel_flatten l.length l cs h (Nat.le_refl _)

theorem planChunksCLI_flatten (offsets : List Nat) (w : Nat) (hw : 0 < w) :
    (planChunksCLI offsets w).flatten = offsets := by
  cases offsets with
  | nil => rfl
  | cons o os =>
    apply sliceChunks_flatten
    have h1 : 1 ≤ ((o :: os).length + w - 1) / w := by
      rw [Nat.one_le_div_iff hw]
      simp only [List.length_cons]
      omega
    omega

theorem planChunksBackend_sum_num_games (offsets : List Nat) :
    ((planChunksBackend offsets).map BackendChunk.num_games).sum = offsets.length := by
  have h1 : (planChunksBackend offsets).map BackendChunk.num_games
      = (sliceChunks offsets 2500).map List.length := by
    simp only [planChunksBackend, List.map_map]
    have h2 : (List.map Prod.snd (sliceChunks offsets 2500).enum).map List.length
        = (sliceChunks offsets 2500).map List.length := by
      rw [List.enum_map_snd]
    rw [← h2, List.map_map]
    rfl
  rw [h1, ← List.length_flatten, sliceChunks_flatten offsets 2500 (by omega)]

/-! ## Data model: decoded records and run settings

A decoded game record exposes the header fields the filters read (both
side ratings after `int(...)` parsing, the ECO classification code) and
its step sequence: `steps` lists the board-state text after each mainline
move, so the record's step indices (plies) are 1 to `steps.length`.
`endLine` is the text line the backend worker writes for the final
position (`board.epd(id=id_str)`), and `idStr` the CLI traceability tag
(`_create_epd_id_string`); both are opaque text produced by the external
chess library. -/

structure Game where
  whiteElo : Int
  blackElo : Int
  eco : String
  steps : List String
  endLine : String
  idStr : String
deriving DecidableEq

/-- The settings dictionary handed to the backend run
(src/backend/epdpgnPython.py lines 47-55 build it; note that
src/backend/server.py's request model has no min_ply field at all).
Only min_elo, max_ply and eco_prefix are ever read by the backend worker
(src/backend/processor.py lines 46-48); min_ply is carried but never read. -/
structure BSettings where
  min_elo : Int
  max_ply : Int
  min_ply : Int
  eco_pref : String
deriving DecidableEq

/-- Python `s.startswith(p)` on the model of strings. -/
def listStarts : List Char → List Char → Bool
  | [], _ => true
  | _ :: _, [] => false
  | a :: as, b :: bs => a = b && listStarts as bs

/-- Python `eco.startswith(pref)`. -/
def strStarts (s pref : String) : Bool :=
  listStarts pref.data s.data

/-! ## CLI extraction worker (src/epdpgnPython.py, process_game_chunk) -/

/-- CLI rating filter (src/epdpgnPython.py lines 51-58): when
`min_elo > 0`, the record is skipped unless both sides' ratings are at
least `min_elo`; when `min_elo` is not positive no rating check runs. -/
def ratingKeepCLI (minElo wElo bElo : Int) : Bool :=
  if minElo > 0 then decide (minElo ≤ wElo) && decide (minElo ≤ bElo) else true

/-- CLI opening filter (src/epdpgnPython.py lines 48-49): skipped when the
configured prefix is absent or empty (Python truthiness), otherwise the
record is kept only if its ECO code starts with the prefix. -/
def ecoKeepCLI (ecoPref : Option String) (eco : String) : Bool :=
  match ecoPref with
  | none => true
  | some p => if p = "" then true else strStarts eco p

/-- The CLI worker's ply loop (src/epdpgnPython.py lines 60-74):

    node = game; ply = 0
    while ply < max_ply:
        if node.is_end(): break
        node = node.variation(0); ply += 1
        if ply >= min_ply: add (fen + " " + id_str)

`steps` holds the board-state text after each mainline move; the result
lists every `.add` call as the pair (ply index, line text), in loop order. -/
def captureFrom (idStr : String) (minP maxP : Int) : List String → Int → List (Int × String)
  | [], _ => []
  | st :: rest, ply =>
    if ply < maxP then
      (if minP ≤ ply + 1 then [(ply + 1, st ++ " " ++ idStr)] else [])
        ++ captureFrom idStr minP maxP rest (ply + 1)
    else []

/-- The step indices `ply+1, ply+2, ...` of a record suffix of the given
length, used to state which plies lie in the capture window. -/
def stepIndicesFrom (ply : Int) : Nat → List Int
  | 0 => []
  | n + 1 => (ply + 1) :: stepIndicesFrom (ply + 1) n

theorem stepIndicesFrom_gt (ply : Int) (n : Nat) :
    ∀ i ∈ stepIndicesFrom ply n, ply < i := by
  induction n generalizing ply with
  | zero => simp [stepIndicesFrom]
  | succ m ih =>
    intro i hi
    simp only [stepIndicesFrom, List.mem_cons] at hi
    rcases hi with rfl | hi
    · omega
    · have := ih (ply + 1) i hi
      omega

theorem stepIndicesFrom_nodup (ply : Int) (n : Nat) :
    (stepIndicesFrom ply n).Nodup := by
  induction n generalizing ply with
  | zero => simp [stepIndicesFrom]
  | succ m ih =>
    simp only [stepIndicesFrom, List.nodup_cons]
    refine ⟨fun h => ?_, ih (ply + 1)⟩
    have := stepIndicesFrom_gt (ply + 1) m _ h
    omega

theorem stepIndicesFrom_filter_nil (minP maxP : Int) (n : Nat) (ply : Int)
    (h : maxP ≤ ply) :
    (stepIndicesFrom ply n).filter (fun i => decide (minP ≤ i ∧ i ≤ maxP)) = [] := by
  rw [List.filter_eq_nil_iff]
  intro i hi
  have := stepIndicesFrom_gt ply n i hi
  simp only [decide_eq_true_eq, not_and, not_le]
  omega

theorem captureFrom_map_fst (idStr : String) (minP maxP : Int) :
    ∀ (steps : List String) (ply : Int),
      (captureFrom idStr minP maxP steps ply).map Prod.fst
        = (stepIndicesFrom ply steps.length).filter
            (fun i => decide (minP ≤ i ∧ i ≤ maxP)) := by
  intro steps
  induction steps with
  | nil => intro ply; simp [captureFrom, stepIndicesFrom]
  | cons st rest ih =>
    intro ply
    simp only [captureFrom, List.length_cons, stepIndicesFrom, List.filter_cons]
    by_cases hlt : ply < maxP
    · simp only [if_pos hlt, List.map_append, ih (ply + 1)]
      by_cases hmin : minP ≤ ply + 1
      · have : (decide (minP ≤ ply + 1 ∧ ply + 1 ≤ maxP)) = true := by
          simp only [decide_eq_true_eq]
          omega
        have hcond : ply + 1 ≤ maxP := by omega
        simp [hmin, this, hcond]
      · have : (decide (minP ≤ ply + 1 ∧ ply + 1 ≤ maxP)) = false := by
          simp only [decide_eq_false_iff_not, not_and]
          omega
        simp [hmin, this]
    · have hle : maxP ≤ ply := by omega
      have : (decide (minP ≤ ply + 1 ∧ ply + 1 ≤ maxP)) = false := by
        simp only [decide_eq_false_iff_not, not_and, not_le]
        omega
      simp only [if_neg hlt, List.map_nil, this]
      rw [stepIndicesFrom_filter_nil minP maxP _ _ (by omega)]
      simp

/-! ## Backend extraction worker (src/backend/processor.py, worker_process)

The worker opens its own handle, seeks to the chunk offset and, for each
game of the chunk: checks the stop event (returning None at once when it
is set), waits in a sleep loop while the pause event is set (re-checking
stop inside the wait), reads one game, applies the combined filter and,
when the game is kept, writes a single line for the game's final position
into its temp file.  On normal completion it returns its temp file path. -/

/-- Backend rating condition (src/backend/processor.py line 92): the game
passes when EITHER side's rating reaches `min_elo`. -/
def ratingKeepBackend (minElo wElo bElo : Int) : Bool :=
  decide (minElo ≤ wElo) || decide (minElo ≤ bElo)

/-- The backend worker's full keep condition (src/backend/processor.py
line 92): rating disjunction, final ply at most `max_ply`, and ECO code
starting with the configured prefix. -/
def keepBackend (s : BSettings) (g : Game) : Bool :=
  ratingKeepBackend s.min_elo g.whiteElo g.blackElo
    && decide ((g.steps.length : Int) ≤ s.max_ply)
    && strStarts g.eco s.eco_pref

/-- The lines the backend worker writes for one kept game
(src/backend/processor.py lines 92-96): exactly one line, the EPD of the
final position, or none when the filter rejects the game. -/
def backendEmit (s : BSettings) (g : Game) : List String :=
  if keepBackend s g then [g.endLine] else []

/-- Result of one backend worker task: whether the worker returned its
temp file path (it returns None instead when it observed the stop event),
and the lines present in its closed temp file at exit. -/
structure WorkerResult where
  returnedPath : Bool
  diskLines : List String
deriving DecidableEq

/-- The worker loop when no signal is ever observed set: process every
game of the chunk in order, appending each kept game's line to the temp
file, and return the path (src/backend/processor.py lines 65-102 with
both events clear at every check). -/
def runAllClear (s : BSettings) : List Game → List String → WorkerResult
  | [], acc => { returnedPath := true, diskLines := acc }
  | g :: rest, acc => runAllClear s rest (acc ++ backendEmit s g)

/-- The worker loop under a schedule of signal observations.  Each
checkpoint (top of the per-game loop, and each turn of the pause wait
loop) reads the pair (stop set?, pause set?); the trace lists these pairs
in observation order, and once it is exhausted every later read sees both
events clear.  Stop observed: return None immediately (the with-block
still closes the temp file, so the lines written so far stay on disk).
Pause observed: consume the observation and re-check without processing.
Otherwise: process one game (src/backend/processor.py lines 65-102). -/
def runWorkerFull (s : BSettings) : List Game → List (Bool × Bool) → List String → WorkerResult
  | games, [], acc => runAllClear s games acc
  | [], _ :: _, acc => { returnedPath := true, diskLines := acc }
  | g :: rest, (st, p) :: ts, acc =>
    if st then { returnedPath := false, diskLines := acc }
    else if p then runWorkerFull s (g :: rest) ts acc
    else runWorkerFull s rest ts (acc ++ backendEmit s g)

/-- The coordinator's collection of finished tasks
(src/backend/processor.py line 225 with the existence filter of line 117):
a task that returned None contributes nothing to the merge. -/
def collectResults (rs : List WorkerResult) : List (List String) :=
  rs.filterMap fun r => if r.returnedPath then some r.diskLines else none

theorem runAllClear_returnedPath (s : BSettings) :
    ∀ (games : List Game) (acc : List String),
      (runAllClear s games acc).returnedPath = true := by
  intro games
  induction games with
  | nil => intro acc; rfl
  | cons g rest ih => intro acc; exact ih _

theorem runAllClear_diskLines (s : BSettings) :
    ∀ (games : List Game) (acc : List String),
      (runAllClear s games acc).diskLines = acc ++ (games.map (backendEmit s)).flatten := by
  intro games
  induction games with
  | nil => intro acc; simp [runAllClear]
  | cons g rest ih =>
    intro acc
    simp [runAllClear, ih]

theorem runWorkerFull_no_stop (s : BSettings) :
    ∀ (trace : List (Bool × Bool)) (games : List Game) (acc : List String),
      (∀ p ∈ trace, p.1 = false) →
      runWorkerFull s games trace acc = runAllClear s games acc := by
  intro trace
  induction trace with
  | nil => intro games acc _; cases games <;> rfl
  | cons ob ts ih =>
    intro games acc h
    obtain ⟨st, p⟩ := ob
    have hst : st = false := h (st, p) (List.mem_cons_self _ _)
    cases games with
    | nil =>
      subst hst
      rfl
    | cons g rest =>
      subst hst
      have hts : ∀ q ∈ ts, q.1 = false := fun q hq => h q (List.mem_cons_of_mem _ hq)
      by_cases hp : p
      · subst hp
        simpa [runWorkerFull] using ih (g :: rest) acc hts
      · simp only [Bool.not_eq_true] at hp
        subst hp
        simp only [runWorkerFull, if_false, Bool.false_eq_true]
        rw [ih rest (acc ++ backendEmit s g) hts]
        rfl

theorem runWorkerFull_stopped_diskLines (s : BSettings) :
    ∀ (trace : List (Bool × Bool)) (games : List Game) (acc : List String),
      (runWorkerFull s games trace acc).returnedPath = false →
      ∃ t, (runAllClear s games acc).diskLines
            = (runWorkerFull s games trace acc).diskLines ++ t := by
  intro trace
  induction trace with
  | nil =>
    intro games acc h
    cases games with
    | nil => simp [runWorkerFull, runAllClear] at h
    | cons g rest =>
      exfalso
      have := runAllClear_returnedPath s (g :: rest) acc
      simp only [runWorkerFull] at h
      rw [this] at h
      simp at h
  | cons ob ts ih =>
    intro games acc h
    obtain ⟨st, p⟩ := ob
    cases games with
    | nil => simp [runWorkerFull] at h
    | cons g rest =>
      by_cases hst : st
      · subst hst
        simp only [runWorkerFull, if_pos rfl] at h ⊢
        rw [runAllClear_diskLines]
        exact ⟨((g :: rest).map (backendEmit s)).flatten, rfl⟩
      · simp only [Bool.not_eq_true] at hst
        subst hst
        by_cases hp : p
        · subst hp
          simp only [runWorkerFull, if_false, if_pos rfl, Bool.false_eq_true] at h ⊢
          exact ih (g :: rest) acc h
        · simp only [Bool.not_eq_true] at hp
          subst hp
          simp only [runWorkerFull, if_false, Bool.false_eq_true] at h ⊢
          obtain ⟨t, ht⟩ := ih rest (acc ++ backendEmit s g) h
          refine ⟨t, ?_⟩
          rw [← ht]
          rfl

/-! ## Backend merge stage (src/backend/processor.py, _merge_files)

`_merge_files` filters the handed-in paths down to those that exist,
reports completion at once when none do, and otherwise opens the final
output file and writes each temp file's raw bytes one after another, the
files taken in sorted-path order; it never reads lines, deduplicates or
sorts line contents.  On any exception it reports an error event; the
`finally` block then removes every surviving temp file in all cases.

A temp file is modelled by the list of its lines, the input list being
the existing files already in sorted-path order; `writeFails` models an
exception raised during the write loop. -/

inductive MStatus where
  | complete
  | error
deriving DecidableEq

/-- Observable outcome of the backend merge stage: the reported terminal
status, the lines of the final output file, and how many of the handed-in
temp files are still on disk afterwards. -/
structure MergeOutcome where
  status : MStatus
  output : List String
  tempRemaining : Nat
deriving DecidableEq

/-- src/backend/processor.py lines 115-140. -/
def mergeFilesB (files : List (List String)) (writeFails : Bool) : MergeOutcome :=
  if files = [] then { status := MStatus.complete, output := [], tempRemaining := 0 }
  else if writeFails then { status := MStatus.error, output := [], tempRemaining := 0 }
  else { status := MStatus.complete, output := files.flatten, tempRemaining := 0 }

/-! ## Coordinator shutdown and control plane
(src/backend/processor.py, run_processing, lines 196-251) -/

inductive PoolShutdown where
  | terminate
  | close
deriving DecidableEq

set_option linter.unusedVariables false in
/-- How run_processing shuts the pool down after its monitoring loop
(src/backend/processor.py lines 219-237): `pool.terminate()` whenever the
stop event is set — the save-on-stop flag is consulted only afterwards,
to choose between merging and discarding — and `pool.close()` otherwise.
The pause event never reaches this decision at all: while paused the
monitoring loop only reports a paused status (line 205). -/
def poolShutdown (stopSet saveOnStop : Bool) : PoolShutdown :=
  if stopSet then PoolShutdown.terminate else PoolShutdown.close

/-- The status string the monitoring loop reports while tasks run
(src/backend/processor.py line 205); pausing changes only this string. -/
def monitorStatus (pauseSet : Bool) : String :=
  if pauseSet then "paused" else "processing"

/-! ## Run entry points -/

/-- Observable effects of the CLI entry point's prologue
(src/epdpgnPython.py, main, lines 113-155): whether it aborted with the
fatal ply-range configuration error, whether the offset scan ran, and how
many worker temp file paths were laid out (one per chunk, line 149).
The ply-range check at lines 113-115 precedes the scan at lines 130-132;
`offsets` stands for the scan's result when it runs. -/
structure CliOutcome where
  fatalConfig : Bool
  scanned : Bool
  tempPathsPlanned : Nat
deriving DecidableEq

/-- src/epdpgnPython.py lines 113-155. -/
def cliMainEffects (minPly maxPly : Int) (offsets : List Nat) (w : Nat) : CliOutcome :=
  if minPly > maxPly then
    { fatalConfig := true, scanned := false, tempPathsPlanned := 0 }
  else
    { fatalConfig := false, scanned := true,
      tempPathsPlanned := (planChunksCLI offsets w).length }

inductive StartResp where
  | started
  | alreadyRunning
deriving DecidableEq

/-- The only validation the backend start endpoint performs
(src/backend/server.py lines 125-156): reject when a run is already
alive, otherwise reset the events and launch run_processing.  No field of
the settings is inspected; the request model does not even carry a
min_ply value. -/
def startProcessing (running : Bool) : StartResp :=
  if running then StartResp.alreadyRunning else StartResp.started

/-- Observable effects of one backend run that is never paused or
stopped: chunks planned (and hence worker tasks submitted and temp files
created, src/backend/processor.py lines 178-193) and the merge outcome of
the success path (lines 246-251).  `games` lists the records of the input
file in scan order; run_processing performs no ply-range validation
anywhere before or after scanning. -/
structure BackendRunOutcome where
  planned : Nat
  result : MergeOutcome
deriving DecidableEq

/-- src/backend/processor.py, run_processing, success path. -/
def backendRunNoStop (s : BSettings) (games : List Game) : BackendRunOutcome :=
  { planned := (sliceChunks games 2500).length,
    result := mergeFilesB
      (collectResults ((sliceChunks games 2500).map fun c => runAllClear s c []))
      false }

/-! ## Concrete inputs used by the witnesses and counterexamples -/

/-- A well-rated three-ply game that passes every filter. -/
def gSample : Game :=
  { whiteElo := 2500, blackElo := 2450, eco := "C41",
    steps := ["s1", "s2", "s3"], endLine := "endpos id e1", idStr := "tag1" }

/-- A well-rated one-ply game that passes every filter. -/
def gShort : Game :=
  { whiteElo := 2100, blackElo := 2050, eco := "B20",
    steps := ["t1"], endLine := "shortpos id e2", idStr := "tag2" }

/-- A game whose white rating is above 2000 but whose black rating is not. -/
def gLopsided : Game :=
  { whiteElo := 2100, blackElo := 1500, eco := "B20",
    steps := ["u1"], endLine := "loppos id e3", idStr := "tag3" }

/-- Settings with the rating filter disabled and window plies 1 to 10. -/
def sSample : BSettings :=
  { min_elo := 0, max_ply := 10, min_ply := 1, eco_pref := "" }

/-- Settings with a 2000 minimum rating. -/
def sElo : BSettings :=
  { min_elo := 2000, max_ply := 1000, min_ply := 1, eco_pref := "" }

/-- Settings whose ply window is inverted: min_ply 5 above max_ply 2. -/
def sPlyBad : BSettings :=
  { min_elo := 0, max_ply := 2, min_ply := 5, eco_pref := "" }

/-! ## Claim C1 -/

/-- C1 counterexample: a backend run that reaches the complete terminal
state whose final output file holds a duplicated line and is not sorted.
Two workers each produced the line "b pos"; _merge_files concatenates the
temp files verbatim, reports complete, and the output lists "b pos"
twice with "a pos" after the first of them. -/
theorem c1_counterexample :
    (mergeFilesB [["b pos"], ["a pos", "b pos"]] false).status = MStatus.complete
    ∧ (mergeFilesB [["b pos"], ["a pos", "b pos"]] false).output
        = ["b pos", "a pos", "b pos"]
    ∧ ¬ ((mergeFilesB [["b pos"], ["a pos", "b pos"]] false).output.Nodup
        ∧ List.Pairwise (fun a b => lineLe a b = true)
            (mergeFilesB [["b pos"], ["a pos", "b pos"]] false).output) := by
  decide

/-- C1 (amended): in the CLI pipeline's merge stage the claim holds — the
final output is sorted ascending by full line text, has no duplicate
line, and contains exactly the distinct stripped lines of all workers'
temp files.  The backend's _merge_files instead concatenates temp files
verbatim in sorted-path order with no line-level dedup or sort. -/
theorem c1_theorem (files : List (List String)) :
    List.Pairwise (fun a b => lineLe a b = true) (mergeCLI files)
    ∧ (mergeCLI files).Nodup
    ∧ ∀ l, l ∈ mergeCLI files ↔ l ∈ files.flatten.map pyStrip :=
  ⟨mergeCLI_sorted files, mergeCLI_nodup files, fun l => mem_mergeCLI files l⟩

/-! ## Claim C2 -/

/-- C2: evaluation at the failing input.  For the kept record gSample
(three steps) under settings with window plies 1 to 10, the claim asks
for one Output Line per step index 1, 2, 3; the backend worker appends
exactly one line — the final position — while the CLI worker's ply loop
does append three.  The backend also repurposes max_ply as a whole-game
length filter rather than a capture bound. -/
theorem c2_theorem :
    backendEmit sSample gSample = ["endpos id e1"]
    ∧ (backendEmit sSample gSample).length = 1
    ∧ ((stepIndicesFrom 0 gSample.steps.length).filter
        (fun i => decide (sSample.min_ply ≤ i ∧ i ≤ sSample.max_ply))).length = 3
    ∧ (captureFrom gSample.idStr sSample.min_ply sSample.max_ply gSample.steps 0).length
        = 3 := by
  decide

/-- C2 supporting fact: the CLI worker does satisfy the claim — the plies
it appends lines for are exactly the record's step indices inside the
inclusive window, each exactly once. -/
theorem captureFrom_window (idStr : String) (minP maxP : Int) (steps : List String) :
    (captureFrom idStr minP maxP steps 0).map Prod.fst
      = (stepIndicesFrom 0 steps.length).filter (fun i => decide (minP ≤ i ∧ i ≤ maxP))
    ∧ ((captureFrom idStr minP maxP steps 0).map Prod.fst).Nodup := by
  refine ⟨captureFrom_map_fst idStr minP maxP steps 0, ?_⟩
  rw [captureFrom_map_fst idStr minP maxP steps 0]
  exact (stepIndicesFrom_nodup 0 steps.length).filter _

/-! ## Claim C3 -/

/-- C3: evaluation at the failing input.  With min_elo 2000 and ratings
2100 / 1500, the backend worker keeps the record and emits an Output Line
although the claim (and the CLI worker, shown last) requires both sides
to reach the minimum. -/
theorem c3_theorem :
    keepBackend sElo gLopsided = true
    ∧ backendEmit sElo gLopsided = ["loppos id e3"]
    ∧ ¬ (sElo.min_elo = 0
        ∨ (sElo.min_elo ≤ gLopsided.whiteElo ∧ sElo.min_elo ≤ gLopsided.blackElo))
    ∧ ratingKeepCLI sElo.min_elo gLopsided.whiteElo gLopsided.blackElo = false := by
  decide

/-! ## Claim C4 -/

/-- C4 counterexample: the backend accepts a start request and runs to
completion although min_ply (5) exceeds max_ply (2).  The start endpoint
performs no ply validation, the offset scan and chunk planning run (one
chunk planned, so a temp file is created), and the run even produces an
output line: no ConfigError, and side effects everywhere. -/
theorem c4_counterexample :
    sPlyBad.min_ply > sPlyBad.max_ply
    ∧ startProcessing false = StartResp.started
    ∧ (backendRunNoStop sPlyBad [gShort]).planned = 1
    ∧ (backendRunNoStop sPlyBad [gShort]).result.status = MStatus.complete
    ∧ (backendRunNoStop sPlyBad [gShort]).result.output = ["shortpos id e2"] := by
  decide

/-- C4 (amended): only the CLI entry point rejects an inverted ply window,
and there the claim holds — the check precedes the offset scan, the run
aborts with the fatal configuration error, and no scan happens and no
temp file path is laid out.  The backend start path never validates the
ply window (its HTTP request model carries no min_ply at all). -/
theorem c4_theorem (minPly maxPly : Int) (offsets : List Nat) (w : Nat)
    (h : minPly > maxPly) :
    cliMainEffects minPly maxPly offsets w
      = { fatalConfig := true, scanned := false, tempPathsPlanned := 0 } := by
  simp [cliMainEffects, h]

/-- C4 witness: the amended theorem at min_ply 5, max_ply 2. -/
theorem c4_witness :
    cliMainEffects 5 2 [0, 7] 1
      = { fatalConfig := true, scanned := false, tempPathsPlanned := 0 } :=
  c4_theorem 5 2 [0, 7] 1 (by decide)

/-! ## Claim C5 -/

/-- C5 counterexample: a worker that observes the stop signal at its very
first checkpoint returns None — not the path of its temporary file — so
its accumulated lines never reach the merge set. -/
theorem c5_counterexample :
    (runWorkerFull sSample [gSample] [(true, false)] []).returnedPath = false
    ∧ collectResults [runWorkerFull sSample [gSample] [(true, false)] []] = [] := by
  decide

/-- C5 (amended): when the worker abandons its chunk on a stop
observation it returns None instead of its temp file path; the lines it
had written are still on disk in its closed temp file (a prefix of what
the full run would have written — the physical flush is indeed
unconditional), but because None is returned the coordinator's collection
step drops them from the merge. -/
theorem c5_theorem (s : BSettings) (games : List Game) (trace : List (Bool × Bool))
    (acc : List String)
    (h : (runWorkerFull s games trace acc).returnedPath = false) :
    (∃ t, (runAllClear s games acc).diskLines
        = (runWorkerFull s games trace acc).diskLines ++ t)
    ∧ collectResults [runWorkerFull s games trace acc] = [] := by
  refine ⟨runWorkerFull_stopped_diskLines s trace games acc h, ?_⟩
  simp [collectResults, h]

/-- C5 witness: the amended theorem for a worker stopped after its first
game. -/
theorem c5_witness :
    collectResults
      [runWorkerFull sSample [gSample, gShort] [(false, false), (true, false)] []] = [] :=
  (c5_theorem sSample [gSample, gShort] [(false, false), (true, false)] [] (by decide)).2

/-! ## Claim C6 -/

/-- C6 counterexample: a merge whose final write fails reports the error
event but leaves zero temp files on disk — the finally block deletes the
single not-yet-absorbed temp file instead of preserving it. -/
theorem c6_counterexample :
    (mergeFilesB [["a pos"]] true).status = MStatus.error
    ∧ (mergeFilesB [["a pos"]] true).tempRemaining = 0 := by
  decide

/-- C6 (amended): when the final write fails the merge stage does report
an error event, but the temp files are not preserved: the finally-block
cleanup always deletes every surviving temp file, so the partial results
are lost.  (The CLI pipeline behaves the same way: its merge runs inside
a try whose finally removes every temp file.) -/
theorem c6_theorem (files : List (List String)) (h : files ≠ []) :
    (mergeFilesB files true).status = MStatus.error
    ∧ (mergeFilesB files true).tempRemaining = 0 := by
  simp [mergeFilesB, h]

/-- C6 witness: the amended theorem for a two-file merge set. -/
theorem c6_witness :
    (mergeFilesB [["b pos"], ["c pos"]] true).status = MStatus.error
    ∧ (mergeFilesB [["b pos"], ["c pos"]] true).tempRemaining = 0 :=
  c6_theorem [["b pos"], ["c pos"]] (by decide)

/-! ## Claim C7 -/

/-- C7 counterexample: a stop with save-on-stop enabled still
force-terminates the worker pool — run_processing calls pool.terminate()
whenever the stop event is set, before it ever consults the save flag. -/
theorem c7_counterexample :
    poolShutdown true true = PoolShutdown.terminate := by
  decide

/-- C7 (amended): the pause signal never causes forced termination — the
pool is closed, never terminated, whenever the stop event is unset, and
the pause event does not enter the shutdown decision at all — but forced
termination is used for EVERY stop, savable or not: on a stop with
save-on-stop enabled the pool is still terminated and only tasks that had
already finished are merged. -/
theorem c7_theorem (stopSet saveOnStop : Bool) :
    (poolShutdown stopSet saveOnStop = PoolShutdown.terminate ↔ stopSet = true)
    ∧ poolShutdown false saveOnStop = PoolShutdown.close := by
  cases stopSet <;> simp [poolShutdown]

/-! ## Claim C8 -/

/-- C8: both chunk planners partition the discovered offset list — the
chunks concatenate back to exactly the original list, so every offset
lies in exactly one chunk, in file order, with no gap or overlap (for the
backend planner, the chunk game-counts additionally sum to the total) —
and the planning is a pure function of the offset list and worker count,
so identical inputs give identical chunkings. -/
theorem c8_theorem (offsets : List Nat) (w : Nat) (hw : 0 < w) :
    (planChunksCLI offsets w).flatten = offsets
    ∧ (sliceChunks offsets 2500).flatten = offsets
    ∧ ((planChunksBackend offsets).map BackendChunk.num_games).sum = offsets.length
    ∧ planChunksCLI offsets w = planChunksCLI offsets w :=
  ⟨planChunksCLI_flatten offsets w hw,
   sliceChunks_flatten offsets 2500 (by omega),
   planChunksBackend_sum_num_games offsets, rfl⟩

/-- C8 witness: the planner partition property at a three-offset list and
two workers. -/
theorem c8_witness :
    (planChunksCLI [3, 7, 9] 2).flatten = [3, 7, 9]
    ∧ (sliceChunks [3, 7, 9] 2500).flatten = [3, 7, 9]
    ∧ ((planChunksBackend [3, 7, 9]).map BackendChunk.num_games).sum = 3
    ∧ planChunksCLI [3, 7, 9] 2 = planChunksCLI [3, 7, 9] 2 :=
  c8_theorem [3, 7, 9] 2 (by decide)

/-! ## Claim C9 -/

/-- C9: a run whose workers observe pause-set observations that are later
cleared, with the stop signal never set, produces worker results — and
hence a merged final output file — identical to the same run with no
pause at all: nothing is lost and work resumes where it left off. -/
theorem c9_theorem (s : BSettings) (workers : List (List Game × List (Bool × Bool)))
    (h : ∀ w ∈ workers, ∀ p ∈ w.2, p.1 = false) :
    (workers.map fun w => runWorkerFull s w.1 w.2 [])
      = (workers.map fun w => runAllClear s w.1 [])
    ∧ mergeFilesB (collectResults (workers.map fun w => runWorkerFull s w.1 w.2 [])) false
      = mergeFilesB (collectResults (workers.map fun w => runAllClear s w.1 [])) false := by
  have h1 : (workers.map fun w => runWorkerFull s w.1 w.2 [])
      = workers.map fun w => runAllClear s w.1 [] := by
    apply List.map_congr_left
    intro w hw
    exact runWorkerFull_no_stop s w.2 w.1 [] (h w hw)
  exact ⟨h1, by rw [h1]⟩

/-- C9 witness: one worker paused at its first checkpoint and resumed at
its second produces the same result and merged output as with no pause. -/
theorem c9_witness :
    ([([gSample], [(false, true), (false, false)])].map
        fun w => runWorkerFull sSample w.1 w.2 [])
      = ([([gSample], [(false, true), (false, false)])].map
        fun w => runAllClear sSample w.1 [])
    ∧ mergeFilesB (collectResults
        (([([gSample], [(false, true), (false, false)])].map
          fun w => runWorkerFull sSample w.1 w.2 []))) false
      = mergeFilesB (collectResults
        (([([gSample], [(false, true), (false, false)])].map
          fun w => runAllClear sSample w.1 []))) false :=
  c9_theorem sSample [([gSample], [(false, true), (false, false)])] (by decide)

/-! ## Claim C10 -/

/-- C10: in the CLI merge stage every temp-file line is stripped of
leading and trailing whitespace before entering the global set, so the
strip of every read line appears in the output, any two raw lines with
the same stripped text yield a single output line, and no output line
starts or ends with a whitespace character. -/
theorem c10_theorem (files : List (List String)) :
    (∀ raw, raw ∈ files.flatten → pyStrip raw ∈ mergeCLI files)
    ∧ (∀ a b, a ∈ files.flatten → b ∈ files.flatten → pyStrip a = pyStrip b →
        (mergeCLI files).count (pyStrip a) = 1)
    ∧ ∀ l, l ∈ mergeCLI files →
        (∀ c, l.data.head? = some c → isPySpace c = false)
        ∧ (∀ c, l.data.getLast? = some c → isPySpace c = false) := by
  refine ⟨?_, ?_, ?_⟩
  · intro raw hraw
    rw [mem_mergeCLI]
    exact List.mem_map_of_mem pyStrip hraw
  · intro a b ha _ _
    have hmem : pyStrip a ∈ mergeCLI files := by
      rw [mem_mergeCLI]
      exact List.mem_map_of_mem pyStrip ha
    exact List.count_eq_one_of_mem (mergeCLI_nodup files) hmem
  · intro l hl
    rw [mem_mergeCLI] at hl
    obtain ⟨raw, _, rfl⟩ := List.mem_map.mp hl
    exact ⟨fun c hc => head_pyStrip_not_space raw c hc,
           fun c hc => getLast_pyStrip_not_space raw c hc⟩

/-- A raw temp-file line with surrounding whitespace. -/
def rawPadded : String := " a pos \n"

/-- The same line text without the surrounding whitespace. -/
def rawPlain : String := "a pos"

/-- C10 witness: two temp-file lines differing only in surrounding
whitespace produce one output line. -/
theorem c10_witness :
    (mergeCLI [[rawPadded], [rawPlain]]).count (pyStrip rawPadded) = 1 :=
  (c10_theorem [[rawPadded], [rawPlain]]).2.1 rawPadded rawPlain
    (by decide) (by decide) (by decide)

end PGNtoEPD
